import Mathlib

/-!
Shallow embedding of the core of `django-extra-checks`
(files `extra_checks/__init__.py`, `extra_checks/controller.py`,
`extra_checks/checks/drf_serializer_checks.py`).

Python objects (model classes, serializer classes, fields) are identified by
opaque identifiers; Python dicts become association lists or functions; the
mutable global `_IGNORED` table and the Django settings/check pipeline are
threaded explicitly.  Parts of the repository that the three source
files use but that are not available (the `ast` module, `forms.ConfigForm`,
the check base classes) are abstracted as parameters with their interface
taken from the specification; every place where that happens is marked in a
doc comment.
-/

namespace ExtraChecks

/-- Check identifiers, from `CheckID` in `extra_checks/__init__.py`
(`X001` … `X011`) plus `X301` which `drf_serializer_checks.py` refers to. -/
inductive CheckId where
  | X001 | X002 | X003 | X004 | X005 | X006 | X007 | X008 | X009 | X010 | X011
  | X301
deriving DecidableEq

/-- Opaque identity of a Python object (a model class, serializer class or
field) used as a key of the `_IGNORED` table. -/
abbrev Obj := Nat

/-- The options dictionary passed to a check constructor
(`**config[check_class.Id]`): an opaque key/value record. -/
abbrev Opts := List (String × String)

/-- `extra_checks/__init__.py`, `ignore_checks(*args)`: returns a decorator
that stores `set(args)` in the global `_IGNORED` table under the decorated
object (a plain dict assignment, so a second application overwrites) and
returns the object itself.  The global table is threaded as an explicit
argument and result. -/
def ignore_checks (args : List CheckId) (entity : Obj)
    (table : Obj → Option (Finset CheckId)) :
    Obj × (Obj → Option (Finset CheckId)) :=
  (entity, Function.update table entity (some args.toFinset))

/-- A registered check class: its `Id`, the names of the classes in its
method-resolution order (used to embed Python `isinstance` tests), and the
tags it was registered with. -/
structure CheckClass where
  id : CheckId
  mro : List String
  tags : List String
deriving DecidableEq

/-- A check instance created by `ChecksController.__init__`.  `token` is the
serial number of the instantiation (fresh per constructor call), letting the
development speak about "the same instance" and "instantiated once". -/
structure Check where
  classId : CheckId
  mro : List String
  opts : Opts
  ignoredObjects : Finset Obj
  token : Nat
deriving DecidableEq

/-- The `self.ignored` mapping built at the top of
`ChecksController.__init__`: inverting the `_IGNORED` table
(`for obj, ids in _IGNORED.items(): for id_ in ids: ignored[id_].add(obj)`),
read back with `self.ignored.get(check_class.Id, set())`. -/
def buildIgnored (table : List (Obj × Finset CheckId)) (i : CheckId) :
    Finset Obj :=
  ((table.filter (fun p => i ∈ p.2)).map Prod.fst).toFinset

/-- `config[check_class.Id]` / `check_class.Id in config`: first-match lookup
in the validated configuration mapping. -/
def lookupCfg : List (CheckId × Opts) → CheckId → Option Opts
  | [], _ => none
  | (k, v) :: rest, i => if k = i then some v else lookupCfg rest i

/-- Result of the instantiation loop of `ChecksController.__init__`:
`pairs` are the `(tag, check-instance)` entries appended into
`self.registered_checks`, `created` the instances in creation order,
`nextToken` the next fresh instance serial number. -/
structure InitResult where
  pairs : List (String × Check)
  created : List Check
  nextToken : Nat


/-- The loop `for check_class, tags in checks.items(): if check_class.Id in
config: check = check_class(ignored_objects=..., **config[...]); for tag in
tags: self.registered_checks.setdefault(tag, []).append(check)`. -/
def initLoop (ign : CheckId → Finset Obj) (config : List (CheckId × Opts)) :
    List CheckClass → Nat → InitResult
  | [], tok => ⟨[], [], tok⟩
  | cc :: rest, tok =>
    match lookupCfg config cc.id with
    | none => initLoop ign config rest tok
    | some opts =>
      let chk : Check := ⟨cc.id, cc.mro, opts, ign cc.id, tok⟩
      let r := initLoop ign config rest (tok + 1)
      ⟨cc.tags.map (fun t => (t, chk)) ++ r.pairs, chk :: r.created, r.nextToken⟩

/-- The controller state after `__init__`: retained validation errors,
the `(tag, instance)` entries of `self.registered_checks`, and the created
instances. -/
structure ChecksController where
  errors : Option (List String)
  pairs : List (String × Check)
  created : List Check


/-- `self.registered_checks.get(tag, [])`: the instances appended under a tag,
in append order. -/
def ChecksController.registered_checks (c : ChecksController) (tag : String) :
    List Check :=
  (c.pairs.filter (fun p => p.1 = tag)).map Prod.snd

/-- The default configuration `{CheckId.X001: {}}` that
`ChecksController.__init__` substitutes for a falsy `config`. -/
def defaultConfig : List (CheckId × Opts) := [(CheckId.X001, [])]

/-- `ChecksController.__init__(checks, config=None, errors=None)`:
`config = config or {CheckId.X001: {}}` (both `None` and an empty dict are
falsy), then the instantiation loop. -/
def ChecksController.init (checks : List CheckClass)
    (config : Option (List (CheckId × Opts)))
    (errors : Option (List String))
    (table : List (Obj × Finset CheckId)) : ChecksController :=
  let cfg := match config with
    | none => defaultConfig
    | some c => if c.isEmpty then defaultConfig else c
  let r := initLoop (buildIgnored table) cfg checks 0
  ⟨errors, r.pairs, r.created⟩

/-- Modelled from the spec: the outcome of validating `settings.EXTRA_CHECKS`
with `ConfigForm` (module `extra_checks/forms.py`, not among the source
files).  `noSettings` is `not hasattr(settings, "EXTRA_CHECKS")`; `valid` is
`form.is_valid(...)` returning `True` with `form.cleaned_data["checks"]`;
`invalid` is validation failure with `form.errors`. -/
inductive ConfigOutcome where
  | noSettings : ConfigOutcome
  | valid : List (CheckId × Opts) → ConfigOutcome
  | invalid : List String → ConfigOutcome


/-- `ChecksController.create(checks)`: no settings → `cls(checks=checks)`;
valid → `cls(checks=checks, config=form.cleaned_data["checks"])`;
invalid → `cls(checks=checks, errors=form.errors)`. -/
def ChecksController.create (checks : List CheckClass)
    (outcome : ConfigOutcome)
    (table : List (Obj × Finset CheckId)) : ChecksController :=
  match outcome with
  | ConfigOutcome.noSettings => ChecksController.init checks none none table
  | ConfigOutcome.valid cfg => ChecksController.init checks (some cfg) none table
  | ConfigOutcome.invalid errs => ChecksController.init checks none (some errs) table

/-- `is_healthy`: `not self.errors` (an empty error dict is falsy). -/
def ChecksController.is_healthy (c : ChecksController) : Bool :=
  match c.errors with
  | none => true
  | some l => l.isEmpty

/-- Python `str.startswith(p)`: the character sequence of `s` begins with
the character sequence of `p`. -/
def pystartswith (s p : String) : Bool :=
  p.toList.isPrefixOf s.toList

/-- A Django model class: an opaque identity. -/
structure ModelC where
  id : Nat
deriving DecidableEq

/-- A Django app config as `_get_models_to_check` consumes it: its
filesystem `path` and the models returned by `app.get_models()`. -/
structure AppConfig where
  path : String
  models : List ModelC
deriving DecidableEq

/-- `ChecksController._get_models_to_check(app_configs)`:
`django.apps.apps.get_app_configs()` when `app_configs is None`, else
`app_configs`; an app's models are yielded only when no element of
`site.PREFIXES` is a string prefix of `app.path`. -/
def get_models_to_check (allApps : List AppConfig)
    (app_configs : Option (List AppConfig))
    (sitePaths : List String) : List ModelC :=
  let apps := match app_configs with
    | none => allApps
    | some l => l
  apps.flatMap (fun app =>
    if sitePaths.any (fun p => pystartswith app.path p) then []
    else app.models)

/-- Modelled from the spec: `ModelAST(model)` (module `extra_checks/ast.py`,
not among the source files).  The spec's Structural Inspector exposes "the
set of declared field names in declaration order"; here only the
`field_nodes` pairs `(field, node)` that `check_models` iterates are kept,
with fields and source nodes as opaque identifiers. -/
structure ModelAST where
  field_nodes : List (Nat × Nat)

/-- `ChecksController.check_models(app_configs)`: partition the checks
registered under `django.core.checks.Tags.models` (the string `"models"`)
into field checks (`isinstance(check, CheckModelField)`, embedded as
membership of `"CheckModelField"` in the instance's class mro) and model
checks; return early when both are empty; otherwise, per model, build one
`ModelAST`, yield each model check's messages, and — only when there are
field checks — per `field_nodes` entry build one `FieldAST` and yield each
field check's messages.  `ModelAST` construction is the abstract
`mkModelAST`, `FieldAST(node)` the abstract `mkFieldAST`; a check call
`check(...)` is the abstract `applyModel` / `applyField`.  Along with the
message stream the number of `FieldAST` constructions is returned, making
the laziness of the field-view branch observable. -/
def check_models {α : Type} (mkModelAST : ModelC → ModelAST)
    (mkFieldAST : Nat → Nat)
    (applyModel : Check → ModelC → ModelAST → List α)
    (applyField : Check → Nat → Nat → ModelC → List α)
    (allApps : List AppConfig) (sitePaths : List String)
    (c : ChecksController) (app_configs : Option (List AppConfig)) :
    List α × Nat :=
  let part := (c.registered_checks "models").partition
    (fun k => k.mro.contains "CheckModelField")
  let field_checks := part.1
  let model_checks := part.2
  if model_checks.isEmpty ∧ field_checks.isEmpty then ([], 0)
  else
    (get_models_to_check allApps app_configs sitePaths).foldl
      (fun (acc : List α × Nat) m =>
        let model_ast := mkModelAST m
        let acc1 := model_checks.foldl
          (fun (a : List α × Nat) k => (a.1 ++ applyModel k m model_ast, a.2)) acc
        if field_checks.isEmpty then acc1
        else model_ast.field_nodes.foldl
          (fun (a : List α × Nat) fn =>
            let field_ast := mkFieldAST fn.2
            (field_checks.foldl
              (fun (b : List α) k => b ++ applyField k fn.1 field_ast m) a.1,
             a.2 + 1)) acc1)
      ([], 0)

/-- `check_models` as a state transformer on the controller: the method body
contains no assignment to `self` or to any global, so its effect on the
controller state is the identity; the explicit state-passing form returns
the controller unchanged alongside the messages. -/
def check_models_run {α : Type} (mkModelAST : ModelC → ModelAST)
    (mkFieldAST : Nat → Nat)
    (applyModel : Check → ModelC → ModelAST → List α)
    (applyField : Check → Nat → Nat → ModelC → List α)
    (allApps : List AppConfig) (sitePaths : List String)
    (c : ChecksController) (app_configs : Option (List AppConfig)) :
    (List α × Nat) × ChecksController :=
  (check_models mkModelAST mkFieldAST applyModel applyField
    allApps sitePaths c app_configs, c)

/-- One step of the inner loop of `ChecksController._collect_serializers`
over the worklist `ss`, with the recursion into `serializer.__subclasses__()`
supplied as `f`: skip a visited class; otherwise add it to the visited set,
emit the recursive results on its subclasses first and then the class
itself, and continue with the rest of the worklist and the grown visited
set. -/
def collectGo {V : Type} [DecidableEq V] (children : V → List V)
    (f : List V → Finset V → List V × Finset V) :
    List V → Finset V → List V × Finset V
  | [], vis => ([], vis)
  | s :: rest, vis =>
    if s ∈ vis then collectGo children f rest vis
    else
      let r1 := f (children s) (insert s vis)
      let r2 := collectGo children f rest r1.2
      (r1.1 ++ s :: r2.1, r2.2)

/-- The recursion of `_collect_serializers`, made structural with a fuel
bound on the recursion depth.  Each nested call strictly grows the visited
set, so the depth never exceeds the number of classes: with any fuel
exceeding `Fintype.card V` the cut-off branch is unreachable (proved below
by `collect_complete`, which needs no side condition on the result). -/
def collectFuel {V : Type} [DecidableEq V] (children : V → List V) :
    Nat → List V → Finset V → List V × Finset V
  | 0, _, vis => ([], vis)
  | fuel + 1, ss, vis => collectGo children (collectFuel children fuel) ss vis

/-- `ChecksController._collect_serializers(ss)`: the top-level call starts
with an empty visited set (`visited = visited or set()`) and yields the
collected classes. -/
def collect_serializers {V : Type} [DecidableEq V] [Fintype V]
    (children : V → List V) (ss : List V) : List V :=
  (collectFuel children (Fintype.card V + 1) ss ∅).1

/-- `ChecksController._filter_app_serializers(ss)`: keep the serializer
classes whose defining module's `__file__` starts with no element of
`site.PREFIXES`. -/
def filter_app_serializers {V : Type} (moduleFile : V → String)
    (sitePaths : List String) (ss : List V) : List V :=
  ss.filter (fun s => ¬ sitePaths.any (fun p => pystartswith (moduleFile s) p))

/-- `ChecksController.check_drf_serializers(app_configs)`: collect the
subclass forest under `serializers.Serializer` (excluding the
`ModelSerializer` root from the worklist) and under
`serializers.ModelSerializer`, filter both to first-party modules, split the
checks registered under `"extra_checks_drf_serializer"` with
`isinstance(check, serializers.ModelSerializer)` (embedded as membership of
`"ModelSerializer"` in the check instance's class mro), then run the
`model_checks` over the model-serializer classes and the remaining `checks`
over the plain serializer classes.  The serializer class graph is given by
`children` (`__subclasses__`), the two roots, and `moduleFile`
(`importlib.import_module(s.__module__).__file__`). -/
def check_drf_serializers {V : Type} [DecidableEq V] [Fintype V] {α : Type}
    (children : V → List V) (serializerRoot modelSerializerRoot : V)
    (moduleFile : V → String) (sitePaths : List String)
    (applyCheck : Check → V → List α)
    (c : ChecksController) : List α :=
  let serializer_classes := filter_app_serializers moduleFile sitePaths
    (collect_serializers children
      ((children serializerRoot).filter (fun s => ¬ s = modelSerializerRoot)))
  let model_serializer_classes := filter_app_serializers moduleFile sitePaths
    (collect_serializers children (children modelSerializerRoot))
  let part := (c.registered_checks "extra_checks_drf_serializer").partition
    (fun k => k.mro.contains "ModelSerializer")
  let model_checks := part.1
  let checks := part.2
  (model_serializer_classes.flatMap (fun s =>
    model_checks.flatMap (fun k => applyCheck k s))) ++
  (serializer_classes.flatMap (fun s =>
    checks.flatMap (fun k => applyCheck k s)))

/-- The three check callbacks of the controller that `Registry.finish`
hands to `django.core.checks.register`. -/
inductive ControllerCallback where
  | check_extra_checks_health : ControllerCallback
  | check_models : ControllerCallback
  | check_drf_serializers : ControllerCallback
deriving DecidableEq

/-- The check registry: the dict `self.checks` of registered check classes
with their tags (insertion-ordered). -/
structure Registry where
  checks : List CheckClass

/-- `Registry.finish()`: build the controller with
`ChecksController.create(self.checks)` and register the controller's
callbacks with `django.core.checks.register`; the embedding returns the
controller together with the list of `(callback, tag)` registrations in the
order they are performed.  The source registers
`check_extra_checks_health` under `"extra_checks_selfcheck"`, then
`check_drf_serializers` under `django.core.checks.Tags.models` (the string
`"models"`), and — only when `rest_framework` imported successfully —
`check_extra_checks_health` under `"extra_checks_drf_serializer"`. -/
def Registry.finish (r : Registry) (outcome : ConfigOutcome)
    (table : List (Obj × Finset CheckId)) (serializersAvailable : Bool) :
    ChecksController × List (ControllerCallback × String) :=
  let controller := ChecksController.create r.checks outcome table
  (controller,
    [(ControllerCallback.check_extra_checks_health, "extra_checks_selfcheck"),
     (ControllerCallback.check_drf_serializers, "models")] ++
    (if serializersAvailable then
      [(ControllerCallback.check_extra_checks_health, "extra_checks_drf_serializer")]
     else []))

/-- The class mro of `CheckDRFSerializerExtraKwargs` from
`drf_serializer_checks.py`: it derives from `CheckDRFModelSerializer`, which
derives from `BaseCheck` — no check class derives from
`rest_framework.serializers.ModelSerializer`. -/
def checkDRFSerializerExtraKwargsMro : List String :=
  ["CheckDRFSerializerExtraKwargs", "CheckDRFModelSerializer", "BaseCheck", "object"]

/-- Transitive reachability along `__subclasses__` edges from a list of root
classes: the relation that `_collect_serializers` is meant to enumerate. -/
inductive Reaches {V : Type} (children : V → List V) (roots : List V) : V → Prop where
  | root {x : V} : x ∈ roots → Reaches children roots x
  | step {x y : V} : Reaches children roots y → x ∈ children y → Reaches children roots x

section Lemmas

variable {V : Type} [DecidableEq V] (children : V → List V)

theorem mem_ite_nil {β : Type} (p : Prop) [Decidable p] (l : List β) (b : β) :
    (b ∈ if p then ([] : List β) else l) ↔ ¬p ∧ b ∈ l := by
  split <;> simp_all

theorem forall₂_mem_left {α β : Type} {R : α → β → Prop}
    {l1 : List α} {l2 : List β} (h : List.Forall₂ R l1 l2) :
    ∀ a ∈ l1, ∃ b ∈ l2, R a b := by
  induction h with
  | nil => simp
  | cons hR _ ih =>
    intro a ha
    rcases List.mem_cons.mp ha with h1 | h2
    · exact ⟨_, List.mem_cons_self _ _, h1 ▸ hR⟩
    · obtain ⟨b, hb, hab⟩ := ih a h2
      exact ⟨b, List.mem_cons_of_mem _ hb, hab⟩

theorem forall₂_mem_right {α β : Type} {R : α → β → Prop}
    {l1 : List α} {l2 : List β} (h : List.Forall₂ R l1 l2) :
    ∀ b ∈ l2, ∃ a ∈ l1, R a b := by
  induction h with
  | nil => simp
  | cons hR _ ih =>
    intro b hb
    rcases List.mem_cons.mp hb with h1 | h2
    · exact ⟨_, List.mem_cons_self _ _, h1 ▸ hR⟩
    · obtain ⟨a, ha, hab⟩ := ih b h2
      exact ⟨a, List.mem_cons_of_mem _ ha, hab⟩

theorem lookupCfg_defaultConfig (i : CheckId) (o : Opts) :
    lookupCfg defaultConfig i = some o ↔ i = CheckId.X001 ∧ o = [] := by
  simp only [defaultConfig, lookupCfg]
  split
  · simp_all [eq_comm]
  · simp_all [eq_comm]

theorem registered_checks_mem (c : ChecksController) (tag : String) (chk : Check) :
    chk ∈ c.registered_checks tag ↔ (tag, chk) ∈ c.pairs := by
  simp only [ChecksController.registered_checks, List.mem_map, List.mem_filter]
  constructor
  · rintro ⟨⟨t, k⟩, ⟨hm, ht⟩, hk⟩
    simp only [decide_eq_true_eq] at ht
    simp only at hk
    rw [← ht, ← hk]
    exact hm
  · intro h
    exact ⟨(tag, chk), ⟨h, by simp⟩, rfl⟩

theorem initLoop_spec (ign : CheckId → Finset Obj) (config : List (CheckId × Opts)) :
    ∀ (ccs : List CheckClass) (tok : Nat),
    List.Forall₂ (fun (cc : CheckClass) (chk : Check) =>
        chk.classId = cc.id ∧ chk.mro = cc.mro ∧
        chk.ignoredObjects = ign cc.id ∧
        lookupCfg config cc.id = some chk.opts ∧
        ∀ t ∈ cc.tags, (t, chk) ∈ (initLoop ign config ccs tok).pairs)
      (ccs.filter (fun cc => (lookupCfg config cc.id).isSome))
      (initLoop ign config ccs tok).created := by
  intro ccs
  induction ccs with
  | nil => intro tok; simp [initLoop]
  | cons cc rest ih =>
    intro tok
    rcases h : lookupCfg config cc.id with _ | opts
    · simpa [initLoop, h] using ih tok
    · have hfilter : (cc :: rest).filter (fun cc => (lookupCfg config cc.id).isSome)
          = cc :: rest.filter (fun cc => (lookupCfg config cc.id).isSome) := by
        simp [List.filter_cons, h]
      rw [hfilter]
      simp only [initLoop, h]
      refine List.Forall₂.cons ⟨rfl, rfl, rfl, h, ?_⟩ ?_
      · intro t ht
        exact List.mem_append_left _ (List.mem_map.mpr ⟨t, ht, rfl⟩)
      · refine (ih (tok + 1)).imp ?_
        intro a b hab
        refine ⟨hab.1, hab.2.1, hab.2.2.1, hab.2.2.2.1, ?_⟩
        intro t ht
        exact List.mem_append_right _ (hab.2.2.2.2 t ht)

theorem initLoop_tokens (ign : CheckId → Finset Obj) (config : List (CheckId × Opts)) :
    ∀ (ccs : List CheckClass) (tok : Nat),
    (initLoop ign config ccs tok).created.map (fun c => c.token)
      = List.range' tok (initLoop ign config ccs tok).created.length := by
  intro ccs
  induction ccs with
  | nil => intro tok; simp [initLoop]
  | cons cc rest ih =>
    intro tok
    rcases h : lookupCfg config cc.id with _ | opts
    · simpa [initLoop, h] using ih tok
    · simp only [initLoop, h, List.map_cons, List.length_cons]
      rw [ih (tok + 1), List.range'_succ]

theorem initLoop_pairs_mem (ign : CheckId → Finset Obj) (config : List (CheckId × Opts)) :
    ∀ (ccs : List CheckClass) (tok : Nat) (t : String) (chk : Check),
    (t, chk) ∈ (initLoop ign config ccs tok).pairs →
    chk ∈ (initLoop ign config ccs tok).created := by
  intro ccs
  induction ccs with
  | nil => intro tok t chk h; simp [initLoop] at h
  | cons cc rest ih =>
    intro tok t chk h
    rcases hc : lookupCfg config cc.id with _ | opts
    · simp only [initLoop, hc] at h ⊢
      exact ih tok t chk h
    · simp only [initLoop, hc, List.mem_append, List.mem_map] at h
      rcases h with ⟨t', _, heq⟩ | h
      · simp only [initLoop, hc]
        have : chk = ⟨cc.id, cc.mro, opts, ign cc.id, tok⟩ := by
          have := congrArg Prod.snd heq
          simpa using this.symm
        simp [this]
      · simp only [initLoop, hc]
        exact List.mem_cons_of_mem _ (ih (tok + 1) t chk h)

end Lemmas

/-- C10: applying the `ignore_checks` decorator a second time to the same
object replaces the recorded identifier set with exactly the identifiers of
the second call (whatever the first call recorded is discarded), and each
application returns the decorated object unchanged. -/
theorem ignore_checks_replaces_and_returns (a1 a2 : List CheckId) (e : Obj)
    (table : Obj → Option (Finset CheckId)) :
    (ignore_checks a1 e table).1 = e ∧
    (ignore_checks a2 e (ignore_checks a1 e table).2).1 = e ∧
    (ignore_checks a2 e (ignore_checks a1 e table).2).2 e = some a2.toFinset := by
  refine ⟨rfl, rfl, ?_⟩
  simp [ignore_checks]

/-- Witness for C10 at a concrete input. -/
theorem ignore_checks_replaces_and_returns_witness :
    (ignore_checks [CheckId.X002] 7
      (ignore_checks [CheckId.X001, CheckId.X003] 7 (fun _ => none)).2).2 7
      = some ({CheckId.X002} : Finset CheckId) :=
  (ignore_checks_replaces_and_returns [CheckId.X001, CheckId.X003]
    [CheckId.X002] 7 (fun _ => none)).2.2

/-- C9: `check_models` contains no assignment to controller state, so in the
state-passing embedding a run returns the controller unchanged and a second
run on the returned state yields the identical message sequence. -/
theorem check_models_run_twice_identical {α : Type}
    (mkModelAST : ModelC → ModelAST) (mkFieldAST : Nat → Nat)
    (applyModel : Check → ModelC → ModelAST → List α)
    (applyField : Check → Nat → Nat → ModelC → List α)
    (allApps : List AppConfig) (sitePaths : List String)
    (c : ChecksController) (app_configs : Option (List AppConfig)) :
    (check_models_run mkModelAST mkFieldAST applyModel applyField allApps
        sitePaths
        (check_models_run mkModelAST mkFieldAST applyModel applyField allApps
          sitePaths c app_configs).2 app_configs).1
      = (check_models_run mkModelAST mkFieldAST applyModel applyField allApps
          sitePaths c app_configs).1 ∧
    (check_models_run mkModelAST mkFieldAST applyModel applyField allApps
        sitePaths c app_configs).2 = c ∧
    (check_models_run mkModelAST mkFieldAST applyModel applyField allApps
        sitePaths
        (check_models_run mkModelAST mkFieldAST applyModel applyField allApps
          sitePaths c app_configs).2 app_configs).2 = c :=
  ⟨rfl, rfl, rfl⟩

/-- C2: evaluation of the registrations performed by `Registry.finish` with
`rest_framework` available.  The controller's entity-check callable
`check_models` is never registered; `check_drf_serializers` is registered
under the models tag instead of the schema-check tag, and the self-check
callable is registered a second time under the schema-check tag. -/
theorem finish_registration_eval :
    ((ControllerCallback.check_models, "models")
        ∉ (Registry.finish ⟨[]⟩ ConfigOutcome.noSettings [] true).2) ∧
    ((ControllerCallback.check_drf_serializers, "extra_checks_drf_serializer")
        ∉ (Registry.finish ⟨[]⟩ ConfigOutcome.noSettings [] true).2) ∧
    ((ControllerCallback.check_drf_serializers, "models")
        ∈ (Registry.finish ⟨[]⟩ ConfigOutcome.noSettings [] true).2) ∧
    ((ControllerCallback.check_extra_checks_health, "extra_checks_drf_serializer")
        ∈ (Registry.finish ⟨[]⟩ ConfigOutcome.noSettings [] true).2) ∧
    ((ControllerCallback.check_extra_checks_health, "extra_checks_selfcheck")
        ∈ (Registry.finish ⟨[]⟩ ConfigOutcome.noSettings [] true).2) := by
  refine ⟨?_, ?_, ?_, ?_, ?_⟩ <;> simp [Registry.finish]

/-- C7: characterization of the first-party filters.  A model is in the
scope of `_get_models_to_check` exactly when one of the (explicitly passed
or discovered) app configs owns it and the app's path starts with no
site-package prefix; a serializer class passes
`_filter_app_serializers` exactly when it was in the input and its module
file starts with no site-package prefix. -/
theorem site_packages_filter_spec (allApps apps : List AppConfig)
    (sitePaths : List String) {V : Type} (moduleFile : V → String)
    (ss : List V) :
    (∀ m : ModelC, m ∈ get_models_to_check allApps (some apps) sitePaths ↔
      ∃ app ∈ apps, m ∈ app.models ∧
        ∀ p ∈ sitePaths, pystartswith app.path p = false) ∧
    (get_models_to_check allApps none sitePaths
      = get_models_to_check allApps (some allApps) sitePaths) ∧
    (∀ s : V, s ∈ filter_app_serializers moduleFile sitePaths ss ↔
      s ∈ ss ∧ ∀ p ∈ sitePaths, pystartswith (moduleFile s) p = false) := by
  refine ⟨?_, rfl, ?_⟩
  · intro m
    simp only [get_models_to_check, List.mem_flatMap, mem_ite_nil, List.any_eq_true,
      not_exists, not_and, Bool.not_eq_true]
    constructor
    · rintro ⟨app, happ, hno, hm⟩
      exact ⟨app, happ, hm, hno⟩
    · rintro ⟨app, happ, hm, hno⟩
      exact ⟨app, happ, hno, hm⟩
  · intro s
    simp [filter_app_serializers, List.mem_filter, List.any_eq_true, Bool.not_eq_true]

/-- Witness for C7 at a concrete input: a model owned by an app under a
site-package prefix is excluded, all others kept. -/
theorem site_packages_filter_spec_witness :
    ((⟨5⟩ : ModelC) ∉ get_models_to_check []
      (some [⟨"sp/vendored", [⟨5⟩]⟩, ⟨"proj/app", [⟨6⟩]⟩]) ["sp"]) ∧
    ((⟨6⟩ : ModelC) ∈ get_models_to_check []
      (some [⟨"sp/vendored", [⟨5⟩]⟩, ⟨"proj/app", [⟨6⟩]⟩]) ["sp"]) := by
  have h := site_packages_filter_spec []
    [⟨"sp/vendored", [⟨5⟩]⟩, ⟨"proj/app", [⟨6⟩]⟩]
    ["sp"] (fun _ : Unit => "") []
  constructor
  · intro hmem
    obtain ⟨app, happ, hm, hno⟩ := (h.1 ⟨5⟩).mp hmem
    rcases List.mem_cons.mp happ with rfl | happ
    · have := hno "sp" (by simp)
      simp only at this
      exact absurd this (by decide)
    · rcases List.mem_cons.mp happ with rfl | happ
      · simp at hm
      · simp at happ
  · refine (h.1 ⟨6⟩).mpr ⟨⟨"proj/app", [⟨6⟩]⟩, by simp, by simp, ?_⟩
    intro p hp
    rcases List.mem_cons.mp hp with rfl | hp
    · decide
    · simp at hp

theorem init_defaultConfig_spec (checks : List CheckClass)
    (errors : Option (List String)) (table : List (Obj × Finset CheckId)) :
    (∀ chk ∈ (ChecksController.init checks none errors table).created,
      chk.classId = CheckId.X001 ∧ chk.opts = []) ∧
    (∀ cc ∈ checks, cc.id = CheckId.X001 →
      ∃ chk ∈ (ChecksController.init checks none errors table).created,
        chk.classId = CheckId.X001 ∧ chk.opts = [] ∧
        chk.ignoredObjects = buildIgnored table CheckId.X001 ∧
        ∀ t ∈ cc.tags,
          chk ∈ (ChecksController.init checks none errors table).registered_checks t) := by
  have hinit : ChecksController.init checks none errors table
      = ⟨errors, (initLoop (buildIgnored table) defaultConfig checks 0).pairs,
         (initLoop (buildIgnored table) defaultConfig checks 0).created⟩ := rfl
  have hspec := initLoop_spec (buildIgnored table) defaultConfig checks 0
  constructor
  · intro chk hchk
    rw [hinit] at hchk
    obtain ⟨cc, _, hR⟩ := forall₂_mem_right hspec chk hchk
    obtain ⟨hid, ho⟩ := (lookupCfg_defaultConfig cc.id chk.opts).mp hR.2.2.2.1
    exact ⟨hR.1.trans hid, ho⟩
  · intro cc hcc hid
    have hmem : cc ∈ checks.filter (fun cc => (lookupCfg defaultConfig cc.id).isSome) := by
      refine List.mem_filter.mpr ⟨hcc, ?_⟩
      simp [hid, defaultConfig, lookupCfg]
    obtain ⟨chk, hchk, hR⟩ := forall₂_mem_left hspec cc hmem
    obtain ⟨hid2, ho⟩ := (lookupCfg_defaultConfig cc.id chk.opts).mp hR.2.2.2.1
    refine ⟨chk, by rw [hinit]; exact hchk, hR.1.trans hid, ho, ?_, ?_⟩
    · rw [hR.2.2.1, hid]
    · intro t ht
      rw [hinit, registered_checks_mem]
      exact hR.2.2.2.2 t ht

/-- C1 (counterexample): with one registered check class carrying the
default identifier `X001` and a failing configuration validation,
`ChecksController.create` retains the errors but does NOT build an empty
active-check map: the `X001` class is instantiated and indexed under its
tag, because `__init__` replaces the absent config by the default
`{X001: {}}` (`config = config or {CheckId.X001: {}}`). -/
theorem create_invalid_instantiates_x001 :
    ((ChecksController.create
        [⟨CheckId.X001, ["CheckConfig", "BaseCheck"], ["extra_checks_selfcheck"]⟩]
        (ConfigOutcome.invalid ["boom"]) []).errors = some ["boom"]) ∧
    ((ChecksController.create
        [⟨CheckId.X001, ["CheckConfig", "BaseCheck"], ["extra_checks_selfcheck"]⟩]
        (ConfigOutcome.invalid ["boom"]) []).created ≠ []) ∧
    ((ChecksController.create
        [⟨CheckId.X001, ["CheckConfig", "BaseCheck"], ["extra_checks_selfcheck"]⟩]
        (ConfigOutcome.invalid ["boom"]) []).registered_checks
        "extra_checks_selfcheck" ≠ []) := by
  refine ⟨rfl, ?_, ?_⟩ <;>
    simp [ChecksController.create, ChecksController.init, initLoop, lookupCfg,
      defaultConfig, ChecksController.registered_checks]

/-- C1 (amended): if configuration validation fails, `create` retains the
validation errors on the controller, and the active-check map is built from
the default configuration `{X001: {}}` instead of being empty: every
instantiated check carries identifier `X001` with empty options, and every
registered class with identifier `X001` is instantiated (with its `X001`
ignore slice) and indexed under each of its tags. -/
theorem create_invalid_retains_errors_default_config
    (checks : List CheckClass) (errs : List String)
    (table : List (Obj × Finset CheckId)) :
    ((ChecksController.create checks (ConfigOutcome.invalid errs) table).errors
      = some errs) ∧
    (∀ chk ∈ (ChecksController.create checks (ConfigOutcome.invalid errs) table).created,
      chk.classId = CheckId.X001 ∧ chk.opts = []) ∧
    (∀ cc ∈ checks, cc.id = CheckId.X001 →
      ∃ chk ∈ (ChecksController.create checks (ConfigOutcome.invalid errs) table).created,
        chk.classId = CheckId.X001 ∧ chk.opts = [] ∧
        chk.ignoredObjects = buildIgnored table CheckId.X001 ∧
        ∀ t ∈ cc.tags,
          chk ∈ (ChecksController.create checks
            (ConfigOutcome.invalid errs) table).registered_checks t) := by
  have h := init_defaultConfig_spec checks (some errs) table
  exact ⟨rfl, h.1, h.2⟩

/-- Witness for the amended C1 at a concrete input. -/
theorem create_invalid_retains_errors_default_config_witness :
    ((ChecksController.create
        [⟨CheckId.X001, ["CheckConfig", "BaseCheck"], ["extra_checks_selfcheck"]⟩]
        (ConfigOutcome.invalid ["boom"]) []).errors = some ["boom"]) ∧
    (∃ chk ∈ (ChecksController.create
        [⟨CheckId.X001, ["CheckConfig", "BaseCheck"], ["extra_checks_selfcheck"]⟩]
        (ConfigOutcome.invalid ["boom"]) []).created,
      chk.classId = CheckId.X001 ∧ chk.opts = [] ∧
      chk.ignoredObjects = buildIgnored [] CheckId.X001 ∧
      ∀ t ∈ ["extra_checks_selfcheck"],
        chk ∈ (ChecksController.create
          [⟨CheckId.X001, ["CheckConfig", "BaseCheck"], ["extra_checks_selfcheck"]⟩]
          (ConfigOutcome.invalid ["boom"]) []).registered_checks t) := by
  have h := create_invalid_retains_errors_default_config
    [⟨CheckId.X001, ["CheckConfig", "BaseCheck"], ["extra_checks_selfcheck"]⟩]
    ["boom"] []
  exact ⟨h.1, h.2.2 _ (List.mem_singleton.mpr rfl) rfl⟩

/-- C4: with no host configuration at all, and likewise with a validated
configuration with zero entries, the controller is built from the default
configuration: the two controllers coincide, every instantiated check
carries identifier `X001` with empty options, and each registered class
with identifier `X001` is instantiated. -/
theorem default_config_activates_x001_only (checks : List CheckClass)
    (table : List (Obj × Finset CheckId)) :
    (ChecksController.create checks (ConfigOutcome.valid []) table
      = ChecksController.create checks ConfigOutcome.noSettings table) ∧
    (∀ chk ∈ (ChecksController.create checks ConfigOutcome.noSettings table).created,
      chk.classId = CheckId.X001 ∧ chk.opts = []) ∧
    (∀ cc ∈ checks, cc.id = CheckId.X001 →
      ∃ chk ∈ (ChecksController.create checks ConfigOutcome.noSettings table).created,
        chk.classId = CheckId.X001 ∧ chk.opts = []) := by
  have h := init_defaultConfig_spec checks none table
  refine ⟨rfl, h.1, ?_⟩
  intro cc hcc hid
  obtain ⟨chk, hchk, h1, h2, _⟩ := h.2 cc hcc hid
  exact ⟨chk, hchk, h1, h2⟩

/-- Witness for C4 at a concrete input. -/
theorem default_config_activates_x001_only_witness :
    ∃ chk ∈ (ChecksController.create
        [⟨CheckId.X001, ["CheckConfig", "BaseCheck"], ["extra_checks_selfcheck"]⟩]
        ConfigOutcome.noSettings []).created,
      chk.classId = CheckId.X001 ∧ chk.opts = [] :=
  (default_config_activates_x001_only
    [⟨CheckId.X001, ["CheckConfig", "BaseCheck"], ["extra_checks_selfcheck"]⟩]
    []).2.2 _ (List.mem_singleton.mpr rfl) rfl

/-- C8: for a successfully validated non-empty configuration, the check
classes whose identifier is in the configuration align one-to-one, in
order, with the created instances (instantiated exactly once each, with
pairwise distinct instantiation tokens); each instance receives exactly the
ignore-registry slice of its own identifier and is indexed under every tag
its class was registered with; and only created instances are ever
indexed. -/
theorem active_checks_instantiated_once (checks : List CheckClass)
    (cfg : List (CheckId × Opts)) (table : List (Obj × Finset CheckId))
    (hcfg : cfg ≠ []) :
    List.Forall₂ (fun (cc : CheckClass) (chk : Check) =>
        chk.classId = cc.id ∧
        chk.ignoredObjects = buildIgnored table cc.id ∧
        lookupCfg cfg cc.id = some chk.opts ∧
        ∀ t ∈ cc.tags,
          chk ∈ (ChecksController.create checks (ConfigOutcome.valid cfg)
            table).registered_checks t)
      (checks.filter (fun cc => (lookupCfg cfg cc.id).isSome))
      (ChecksController.create checks (ConfigOutcome.valid cfg) table).created ∧
    ((ChecksController.create checks (ConfigOutcome.valid cfg) table).created.map
      (fun chk => chk.token)).Nodup ∧
    (∀ tag chk,
      chk ∈ (ChecksController.create checks (ConfigOutcome.valid cfg)
        table).registered_checks tag →
      chk ∈ (ChecksController.create checks (ConfigOutcome.valid cfg)
        table).created) := by
  have hempty : cfg.isEmpty = false := by
    cases cfg with
    | nil => exact absurd rfl hcfg
    | cons a l => rfl
  have hinit : ChecksController.create checks (ConfigOutcome.valid cfg) table
      = ⟨none, (initLoop (buildIgnored table) cfg checks 0).pairs,
         (initLoop (buildIgnored table) cfg checks 0).created⟩ := by
    simp [ChecksController.create, ChecksController.init, hempty]
  rw [hinit]
  refine ⟨?_, ?_, ?_⟩
  · refine (initLoop_spec (buildIgnored table) cfg checks 0).imp ?_
    intro cc chk h
    refine ⟨h.1, h.2.2.1, h.2.2.2.1, ?_⟩
    intro t ht
    rw [registered_checks_mem]
    exact h.2.2.2.2 t ht
  · rw [initLoop_tokens]
    exact List.nodup_range' _ _
  · intro tag chk h
    rw [registered_checks_mem] at h
    exact initLoop_pairs_mem (buildIgnored table) cfg checks 0 tag chk h

/-- Witness for C8 at a concrete input. -/
theorem active_checks_instantiated_once_witness :
    ((ChecksController.create [⟨CheckId.X002, ["CheckX002", "BaseCheck"], ["models"]⟩]
        (ConfigOutcome.valid [(CheckId.X002, [])]) []).created.map
      (fun chk => chk.token)).Nodup :=
  (active_checks_instantiated_once
    [⟨CheckId.X002, ["CheckX002", "BaseCheck"], ["models"]⟩]
    [(CheckId.X002, [])] [] (by simp)).2.1

/-- The declarative reading of the entity-check run from the spec (§4.4):
diagnostics entity-by-entity in the scope's iteration order; within one
entity, the whole-entity checks' messages first, then — only when a
per-field check is active — the field messages, fields in `field_nodes`
order; one `FieldAST` per field and only when a per-field check is
active. -/
def check_models_spec {α : Type} (mkModelAST : ModelC → ModelAST)
    (mkFieldAST : Nat → Nat)
    (applyModel : Check → ModelC → ModelAST → List α)
    (applyField : Check → Nat → Nat → ModelC → List α)
    (allApps : List AppConfig) (sitePaths : List String)
    (c : ChecksController) (app_configs : Option (List AppConfig)) :
    List α × Nat :=
  let field_checks := (c.registered_checks "models").filter
    (fun k => k.mro.contains "CheckModelField")
  let model_checks := (c.registered_checks "models").filter
    (fun k => !(k.mro.contains "CheckModelField"))
  let scope := get_models_to_check allApps app_configs sitePaths
  (scope.flatMap (fun m =>
    model_checks.flatMap (fun k => applyModel k m (mkModelAST m)) ++
    (if field_checks.isEmpty then []
     else (mkModelAST m).field_nodes.flatMap (fun fn =>
       field_checks.flatMap (fun k => applyField k fn.1 (mkFieldAST fn.2) m)))),
   if field_checks.isEmpty then 0
   else (scope.map (fun m => (mkModelAST m).field_nodes.length)).sum)

theorem foldl_append_list {α β : Type} (f : β → List α) :
    ∀ (l : List β) (acc : List α),
    l.foldl (fun a k => a ++ f k) acc = acc ++ l.flatMap f := by
  intro l
  induction l with
  | nil => intro acc; simp
  | cons x xs ih => intro acc; simp [ih, List.append_assoc]

theorem foldl_append_pair {α β : Type} (f : β → List α) :
    ∀ (l : List β) (acc : List α × Nat),
    l.foldl (fun (a : List α × Nat) k => (a.1 ++ f k, a.2)) acc
      = (acc.1 ++ l.flatMap f, acc.2) := by
  intro l
  induction l with
  | nil => intro acc; simp
  | cons x xs ih => intro acc; simp [ih, List.append_assoc]

theorem foldl_step_pair {α β : Type} (step : (List α × Nat) → β → (List α × Nat))
    (f : β → List α) (g : β → Nat)
    (hstep : ∀ acc b, step acc b = (acc.1 ++ f b, acc.2 + g b)) :
    ∀ (l : List β) (acc : List α × Nat),
    l.foldl step acc = (acc.1 ++ l.flatMap f, acc.2 + (l.map g).sum) := by
  intro l
  induction l with
  | nil => intro acc; simp
  | cons x xs ih =>
    intro acc
    rw [List.foldl_cons, hstep, ih]
    simp [List.append_assoc, Nat.add_assoc]

theorem sum_map_ones {β : Type} :
    ∀ (l : List β), (l.map (fun _ => (1 : Nat))).sum = l.length := by
  intro l
  induction l with
  | nil => rfl
  | cons x xs ih => simp [ih, Nat.add_comm]

theorem sum_map_zeros {β : Type} :
    ∀ (l : List β), (l.map (fun _ => (0 : Nat))).sum = 0 := by
  intro l
  induction l with
  | nil => rfl
  | cons x xs ih => simp [ih]

/-- C6: the imperative entity-check run of `check_models` equals its
declarative reading `check_models_spec`: messages come entity-by-entity in
the order of the first-party scope; within one entity the whole-entity
checks' messages precede all field messages; field messages follow the
`field_nodes` order of the entity's structural view; and the number of
`FieldAST` constructions is zero unless at least one per-field check is
active. -/
theorem check_models_ordering {α : Type} (mkModelAST : ModelC → ModelAST)
    (mkFieldAST : Nat → Nat)
    (applyModel : Check → ModelC → ModelAST → List α)
    (applyField : Check → Nat → Nat → ModelC → List α)
    (allApps : List AppConfig) (sitePaths : List String)
    (c : ChecksController) (app_configs : Option (List AppConfig)) :
    check_models mkModelAST mkFieldAST applyModel applyField allApps
        sitePaths c app_configs
      = check_models_spec mkModelAST mkFieldAST applyModel applyField allApps
        sitePaths c app_configs := by
  unfold check_models check_models_spec
  rw [List.partition_eq_filter_filter]
  simp only [Function.comp_def]
  generalize (c.registered_checks "models").filter
    (fun k => k.mro.contains "CheckModelField") = fcs
  generalize (c.registered_checks "models").filter
    (fun k => !(k.mro.contains "CheckModelField")) = mcs
  generalize get_models_to_check allApps app_configs sitePaths = scope
  cases hf : fcs.isEmpty with
  | true =>
    have hf2 : fcs = [] := List.isEmpty_iff.mp hf
    subst hf2
    by_cases hm : mcs.isEmpty
    · rw [if_pos ⟨hm, rfl⟩]
      have hm2 : mcs = [] := List.isEmpty_iff.mp hm
      subst hm2
      simp
    · rw [if_neg (fun hc => hm hc.1)]
      simp only [eq_self_iff_true, if_true]
      rw [foldl_step_pair _
        (fun m => mcs.flatMap (fun k => applyModel k m (mkModelAST m)))
        (fun _ => 0)]
      · simp [sum_map_zeros]
      · intro acc m
        rw [foldl_append_pair]
        simp
  | false =>
    rw [if_neg (fun hc => Bool.false_ne_true hc.2)]
    simp only [Bool.false_eq_true, if_false]
    rw [foldl_step_pair _
      (fun m =>
        mcs.flatMap (fun k => applyModel k m (mkModelAST m)) ++
        (mkModelAST m).field_nodes.flatMap (fun fn =>
          fcs.flatMap (fun k => applyField k fn.1 (mkFieldAST fn.2) m)))
      (fun m => (mkModelAST m).field_nodes.length)]
    · simp
    · intro acc m
      rw [foldl_step_pair _
        (fun fn => fcs.flatMap (fun k => applyField k fn.1 (mkFieldAST fn.2) m))
        (fun _ => 1)]
      · rw [foldl_append_pair]
        simp [sum_map_ones, List.append_assoc]
      · intro a fn
        rw [foldl_append_list]

section Collect

variable {V : Type} [DecidableEq V] (children : V → List V)

theorem collectGo_mono (f : List V → Finset V → List V × Finset V)
    (hf : ∀ ss vis, vis ⊆ (f ss vis).2) :
    ∀ (ss : List V) (vis : Finset V), vis ⊆ (collectGo children f ss vis).2 := by
  intro ss
  induction ss with
  | nil => intro vis; simp [collectGo]
  | cons s rest ih =>
    intro vis
    by_cases hs : s ∈ vis
    · simpa [collectGo, hs] using ih vis
    · simp only [collectGo, if_neg hs]
      intro x hx
      exact ih _ (hf (children s) (insert s vis) (Finset.mem_insert_of_mem hx))

theorem collectFuel_mono :
    ∀ (fuel : Nat) (ss : List V) (vis : Finset V),
    vis ⊆ (collectFuel children fuel ss vis).2 := by
  intro fuel
  induction fuel with
  | zero => intro ss vis; simp [collectFuel]
  | succ fuel ih => intro ss vis; exact collectGo_mono children _ ih ss vis

theorem collectGo_invariant (f : List V → Finset V → List V × Finset V)
    (hf : ∀ ss vis, (f ss vis).2 = vis ∪ (f ss vis).1.toFinset
      ∧ (f ss vis).1.Nodup ∧ ∀ x ∈ (f ss vis).1, x ∉ vis) :
    ∀ (ss : List V) (vis : Finset V),
    (collectGo children f ss vis).2
        = vis ∪ (collectGo children f ss vis).1.toFinset
      ∧ (collectGo children f ss vis).1.Nodup
      ∧ ∀ x ∈ (collectGo children f ss vis).1, x ∉ vis := by
  intro ss
  induction ss with
  | nil => intro vis; simp [collectGo]
  | cons s rest ih =>
    intro vis
    by_cases hs : s ∈ vis
    · simpa [collectGo, hs] using ih vis
    · simp only [collectGo, if_neg hs]
      obtain ⟨h1u, h1n, h1d⟩ := hf (children s) (insert s vis)
      obtain ⟨h2u, h2n, h2d⟩ := ih ((f (children s) (insert s vis)).2)
      have hsub1 : insert s vis ⊆ (f (children s) (insert s vis)).2 := by
        rw [h1u]; exact Finset.subset_union_left
      have hout1 : ∀ x ∈ (f (children s) (insert s vis)).1,
          x ∈ (f (children s) (insert s vis)).2 := by
        intro x hx
        rw [h1u]
        exact Finset.mem_union_right _ (List.mem_toFinset.mpr hx)
      refine ⟨?_, ?_, ?_⟩
      · rw [h2u, h1u]
        ext x
        simp only [Finset.mem_union, Finset.mem_insert, List.mem_toFinset,
          List.mem_append, List.mem_cons]
        tauto
      · rw [List.nodup_append]
        refine ⟨h1n, ?_, ?_⟩
        · rw [List.nodup_cons]
          refine ⟨?_, h2n⟩
          intro hsmem
          exact h2d s hsmem (hsub1 (Finset.mem_insert_self s vis))
        · intro x hx hx2
          rcases List.mem_cons.mp hx2 with rfl | hx3
          · exact h1d x hx (Finset.mem_insert_self x vis)
          · exact h2d x hx3 (hout1 x hx)
      · intro x hx
        rcases List.mem_append.mp hx with hx1 | hx2
        · intro hxv
          exact h1d x hx1 (Finset.mem_insert_of_mem hxv)
        · rcases List.mem_cons.mp hx2 with rfl | hx3
          · exact hs
          · intro hxv
            exact h2d x hx3 (hsub1 (Finset.mem_insert_of_mem hxv))

theorem collectFuel_invariant :
    ∀ (fuel : Nat) (ss : List V) (vis : Finset V),
    (collectFuel children fuel ss vis).2
        = vis ∪ (collectFuel children fuel ss vis).1.toFinset
      ∧ (collectFuel children fuel ss vis).1.Nodup
      ∧ ∀ x ∈ (collectFuel children fuel ss vis).1, x ∉ vis := by
  intro fuel
  induction fuel with
  | zero => intro ss vis; simp [collectFuel]
  | succ fuel ih => intro ss vis; exact collectGo_invariant children _ ih ss vis

theorem collectGo_sound (f : List V → Finset V → List V × Finset V)
    (Q : V → Prop) (hQ : ∀ y, Q y → ∀ x ∈ children y, Q x)
    (hf : ∀ ss vis, (∀ s ∈ ss, Q s) → ∀ x ∈ (f ss vis).1, Q x) :
    ∀ (ss : List V) (vis : Finset V),
    (∀ s ∈ ss, Q s) → ∀ x ∈ (collectGo children f ss vis).1, Q x := by
  intro ss
  induction ss with
  | nil => intro vis _; simp [collectGo]
  | cons s rest ih =>
    intro vis hss
    by_cases hs : s ∈ vis
    · simp only [collectGo, if_pos hs]
      exact ih vis (fun t ht => hss t (List.mem_cons_of_mem _ ht))
    · simp only [collectGo, if_neg hs]
      intro x hx
      rcases List.mem_append.mp hx with hx1 | hx2
      · exact hf (children s) (insert s vis)
          (fun c hc => hQ s (hss s (List.mem_cons_self _ _)) c hc) x hx1
      · rcases List.mem_cons.mp hx2 with rfl | hx3
        · exact hss x (List.mem_cons_self _ _)
        · exact ih _ (fun t ht => hss t (List.mem_cons_of_mem _ ht)) x hx3

theorem collectFuel_sound (Q : V → Prop)
    (hQ : ∀ y, Q y → ∀ x ∈ children y, Q x) :
    ∀ (fuel : Nat) (ss : List V) (vis : Finset V),
    (∀ s ∈ ss, Q s) → ∀ x ∈ (collectFuel children fuel ss vis).1, Q x := by
  intro fuel
  induction fuel with
  | zero => intro ss vis _; simp [collectFuel]
  | succ fuel ih => intro ss vis; exact collectGo_sound children _ Q hQ ih ss vis

theorem collectFuel_complete [Fintype V] :
    ∀ (fuel : Nat) (ss : List V) (vis : Finset V),
    (Finset.univ \ vis).card < fuel →
    (∀ s ∈ ss, s ∈ (collectFuel children fuel ss vis).2) ∧
    (∀ x ∈ (collectFuel children fuel ss vis).2, x ∉ vis →
      ∀ c ∈ children x, c ∈ (collectFuel children fuel ss vis).2) := by
  intro fuel
  induction fuel with
  | zero => intro ss vis h; exact absurd h (Nat.not_lt_zero _)
  | succ fuel ihf =>
    intro ss
    induction ss with
    | nil =>
      intro vis _
      constructor
      · intro s hs; exact absurd hs (List.not_mem_nil s)
      · intro x hx hxv c _
        simp only [collectFuel, collectGo] at hx
        exact absurd hx hxv
    | cons s rest ihrest =>
      intro vis hfuel
      by_cases hs : s ∈ vis
      · have heq : collectFuel children (fuel + 1) (s :: rest) vis
            = collectFuel children (fuel + 1) rest vis := by
          simp only [collectFuel, collectGo, if_pos hs]
        have h := ihrest vis hfuel
        constructor
        · intro t ht
          rcases List.mem_cons.mp ht with rfl | ht2
          · exact collectFuel_mono children (fuel + 1) (t :: rest) vis hs
          · rw [heq]; exact h.1 t ht2
        · rw [heq]; exact h.2
      · have hsu : s ∈ Finset.univ \ vis :=
          Finset.mem_sdiff.mpr ⟨Finset.mem_univ s, hs⟩
        have hfuel1 : (Finset.univ \ insert s vis).card < fuel := by
          have hsub : Finset.univ \ insert s vis ⊆ (Finset.univ \ vis).erase s := by
            intro x hx
            rw [Finset.mem_sdiff, Finset.mem_insert] at hx
            push_neg at hx
            exact Finset.mem_erase.mpr ⟨hx.2.1, Finset.mem_sdiff.mpr ⟨hx.1, hx.2.2⟩⟩
          have hle := Finset.card_le_card hsub
          have herase := Finset.card_erase_of_mem hsu
          have hpos : 1 ≤ (Finset.univ \ vis).card :=
            Finset.card_pos.mpr ⟨s, hsu⟩
          omega
        have ih1 := ihf (children s) (insert s vis) hfuel1
        have hmono1 := collectFuel_mono children fuel (children s) (insert s vis)
        have hfuel2 : (Finset.univ \
            (collectFuel children fuel (children s) (insert s vis)).2).card
            < fuel + 1 := by
          have hsub : Finset.univ \
              (collectFuel children fuel (children s) (insert s vis)).2
              ⊆ Finset.univ \ vis := by
            refine Finset.sdiff_subset_sdiff (Finset.Subset.refl _) ?_
            exact Finset.Subset.trans (Finset.subset_insert s vis) hmono1
          exact lt_of_le_of_lt (Finset.card_le_card hsub) hfuel
        have ih2 := ihrest
          (collectFuel children fuel (children s) (insert s vis)).2 hfuel2
        have hmono2 := collectFuel_mono children (fuel + 1) rest
          (collectFuel children fuel (children s) (insert s vis)).2
        have heq : collectFuel children (fuel + 1) (s :: rest) vis
            = ((collectFuel children fuel (children s) (insert s vis)).1 ++ s ::
                (collectFuel children (fuel + 1) rest
                  (collectFuel children fuel (children s) (insert s vis)).2).1,
               (collectFuel children (fuel + 1) rest
                  (collectFuel children fuel (children s) (insert s vis)).2).2) := by
          simp only [collectFuel, collectGo, if_neg hs]
        rw [heq]
        constructor
        · intro t ht
          rcases List.mem_cons.mp ht with rfl | ht2
          · exact hmono2 (hmono1 (Finset.mem_insert_self t vis))
          · exact ih2.1 t ht2
        · intro x hx hxv c hc
          by_cases hx1 : x ∈ (collectFuel children fuel (children s) (insert s vis)).2
          · by_cases hxs : x = s
            · subst hxs
              exact hmono2 (ih1.1 c hc)
            · have hxiv : x ∉ insert s vis := by
                rw [Finset.mem_insert]
                push_neg
                exact ⟨hxs, hxv⟩
              exact hmono2 (ih1.2 x hx1 hxiv c hc)
          · exact ih2.2 x hx hx1 c hc

end Collect

/-- C5: `_collect_serializers` enumerates, from any worklist of root
classes, exactly the classes transitively reachable along `__subclasses__`
edges, each exactly once: the output has no duplicates and its members are
precisely the reachable classes. -/
theorem collect_serializers_exactly_once {V : Type} [DecidableEq V]
    [Fintype V] (children : V → List V) (roots : List V) :
    (collect_serializers children roots).Nodup ∧
    ∀ x : V, x ∈ collect_serializers children roots ↔
      Reaches children roots x := by
  have hfuel : (Finset.univ \ (∅ : Finset V)).card < Fintype.card V + 1 := by
    simp [Finset.card_univ]
  have hinv := collectFuel_invariant children (Fintype.card V + 1) roots ∅
  have hcomp := collectFuel_complete children (Fintype.card V + 1) roots ∅ hfuel
  refine ⟨hinv.2.1, ?_⟩
  intro x
  constructor
  · intro hx
    exact collectFuel_sound children (Reaches children roots)
      (fun y hy c hc => Reaches.step hy hc) (Fintype.card V + 1) roots ∅
      (fun s hs => Reaches.root hs) x hx
  · intro hr
    have hmem2 : x ∈ (collectFuel children (Fintype.card V + 1) roots ∅).2 := by
      induction hr with
      | root hx => exact hcomp.1 _ hx
      | step hy hc ihy => exact hcomp.2 _ ihy (Finset.not_mem_empty _) _ hc
    rw [hinv.1] at hmem2
    simpa [collect_serializers] using hmem2

/-- The diamond class graph of the spec's schema-collection property:
`D` (3) inherits from both `B` (1) and `C` (2), which both inherit from
`A` (0). -/
def diamondChildren : Fin 4 → List (Fin 4)
  | 0 => [1, 2]
  | 1 => [3]
  | 2 => [3]
  | 3 => []

/-- Witness for C5: on the diamond, the collection has no duplicates and
evaluates to each of the four classes exactly once. -/
theorem collect_serializers_exactly_once_witness :
    (collect_serializers diamondChildren [0]).Nodup ∧
    collect_serializers diamondChildren [0] = [3, 1, 2, 0] :=
  ⟨(collect_serializers_exactly_once diamondChildren [0]).1, by decide⟩

/-- The serializer class graph of the C3 scenario: class 0 is
`serializers.Serializer`; class 1 is `serializers.ModelSerializer`, a
subclass of `Serializer`; class 2 is a first-party subclass of
`ModelSerializer`; class 3 is a first-party plain `Serializer`
subclass. -/
def drfChildren : Fin 4 → List (Fin 4)
  | 0 => [1, 3]
  | 1 => [2]
  | _ => []

/-- Module files of the C3 scenario: the two `rest_framework` roots live
under the site-packages path `sp`, the two first-party classes under
`app`. -/
def drfModuleFile : Fin 4 → String
  | 0 => "sp/rest_framework/serializers.py"
  | 1 => "sp/rest_framework/serializers.py"
  | _ => "app/serializers.py"

/-- An instance of `CheckDRFSerializerExtraKwargs` (`Id = X301`), the
representative check scoped to model serializers: its class mro contains
`CheckDRFModelSerializer` but not `ModelSerializer`. -/
def x301Check : Check :=
  ⟨CheckId.X301, checkDRFSerializerExtraKwargsMro, [], ∅, 0⟩

/-- A controller with the `X301` check registered under the
`extra_checks_drf_serializer` tag. -/
def drfController : ChecksController :=
  ⟨none, [("extra_checks_drf_serializer", x301Check)], [x301Check]⟩

/-- C3: evaluation of `check_drf_serializers` on the concrete scenario,
recording which check runs against which class.  The model-serializer
check `X301` is applied to the plain first-party `Serializer` subclass
(class 3) and never to the first-party `ModelSerializer` subclass
(class 2): the partition `isinstance(check, serializers.ModelSerializer)`
holds for no check instance, so `model_checks` is empty and every check
lands in the plain-serializer loop. -/
theorem check_drf_serializers_partition_eval :
    (check_drf_serializers drfChildren 0 1 drfModuleFile ["sp"]
        (fun k s => [(k.classId, s)]) drfController
      = [(CheckId.X301, (3 : Fin 4))]) ∧
    ((CheckId.X301, (2 : Fin 4)) ∉
      check_drf_serializers drfChildren 0 1 drfModuleFile ["sp"]
        (fun k s => [(k.classId, s)]) drfController) := by
  refine ⟨by decide, ?_⟩
  intro h
  rw [(by decide : check_drf_serializers drfChildren 0 1 drfModuleFile ["sp"]
      (fun k s => [(k.classId, s)]) drfController
      = [(CheckId.X301, (3 : Fin 4))])] at h
  exact absurd h (by decide)

end ExtraChecks
